import Mathlib

/-!
Verification of the `pubmed-paper-fetcher` core (`pubmed_paper_fetcher/fetcher.py`)
against its natural-language specification.

The development shallowly embeds the parsing and classification pipeline:

* `is_company_affil` — the affiliation classification heuristic;
* `first_email` — leftmost match of the e-mail regular expression;
* `shorten` — model of `textwrap.shorten` used for title truncation;
* `pubDateOf` — publication-date extraction with article-level / journal-level
  fallback;
* `parseRecord` / `parse_articles` — per-record row construction;
* `chunksOf` — the EFetch batching loop;
* `fetch_papers` — the orchestrator, with the network stages abstracted as
  `Except`-valued parameters.

Python string primitives (`str.lower`, `str.strip`, `str.split`, `sorted`,
`set`) are modelled by kernel-computable functions over character lists;
case folding and whitespace are modelled at ASCII granularity, which is the
granularity the source's keyword patterns operate at.
-/

namespace PubmedFetcher

/-! ### Python string primitives, modelled over `List Char` -/

/-- Python `str.lower()` (ASCII case folding). -/
def pyLower (s : String) : String :=
  String.mk (s.toList.map Char.toLower)

/-- Python `str.strip()`: drop leading and trailing whitespace. -/
def pyStrip (s : String) : String :=
  String.mk (((s.toList.dropWhile Char.isWhitespace).reverse.dropWhile
      Char.isWhitespace).reverse)

/-- Worker for `pyWords`: split a character list at whitespace runs,
accumulating the current word reversed in `acc`. -/
def pyWordsAux : List Char → List Char → List String
  | [], acc => if acc.isEmpty then [] else [String.mk acc.reverse]
  | c :: cs, acc =>
    if c.isWhitespace then
      if acc.isEmpty then pyWordsAux cs []
      else String.mk acc.reverse :: pyWordsAux cs []
    else pyWordsAux cs (c :: acc)

/-- Python `str.split()` with no argument: the whitespace-separated words. -/
def pyWords (s : String) : List String :=
  pyWordsAux s.toList []

/-- Boolean lexicographic order on character lists (code-point order),
the order Python `sorted` uses on strings. -/
def lexLe : List Char → List Char → Bool
  | [], _ => true
  | _ :: _, [] => false
  | a :: as, b :: bs => if a < b then true else if a = b then lexLe as bs else false

/-- Boolean lexicographic order on strings. -/
def strLe (a b : String) : Bool :=
  lexLe a.toList b.toList

/-- Insert into a `strLe`-sorted list, keeping it sorted. -/
def insertSorted (a : String) : List String → List String
  | [] => [a]
  | b :: bs => if strLe a b then a :: b :: bs else b :: insertSorted a bs

/-- Insertion sort by `strLe`: the sorted arrangement produced by Python
`sorted` (any correct sort of a list of distinct strings yields the same
result, so the choice of algorithm is immaterial). -/
def sortStr : List String → List String
  | [] => []
  | a :: as => insertSorted a (sortStr as)

/-- Remove duplicates (by string equality), keeping one occurrence of each
element; together with `sortStr` this models Python `sorted(set(xs))`,
whose result is the unique sorted duplicate-free listing of the elements. -/
def dedupStr : List String → List String
  | [] => []
  | a :: as => if a ∈ as then dedupStr as else a :: dedupStr as

/-- `sorted(set(xs))`. -/
def sortedDedup (l : List String) : List String :=
  sortStr (dedupStr l)

/-- Python falsy-coalescing `x or y` for an optional string (`None` and the
empty string both fall through to `y`), as used with `findtext(...) or d`. -/
def orFalsy (x : Option String) (y : String) : String :=
  match x with
  | some s => if s = "" then y else s
  | none => y

/-! ### Affiliation classifier (fetcher.py lines 34-47, 96-101)

`COMPANY_KEYWORDS` is the verbose-mode, case-insensitive regex

  `pharm|biotech|inc\.?|ltd\.?|llc|gmbh|corp|corporation|s\.?a\.?|plc|k\.?k\.?|co\.?\s?ltd`

used with `re.search`, i.e. with substring-search semantics: the pattern
matches a string iff some substring is in the language of some alternative.
Under substring search an alternative with an optional trailing piece is
equivalent to the alternative without it (`inc\.?` matches somewhere iff
`inc` occurs), so each alternative reduces to a finite set of literal
keywords tested for substring occurrence:

* `inc\.?` ↦ `inc`; `ltd\.?` ↦ `ltd`; `corporation` is subsumed by `corp`
  but kept for transparency;
* `s\.?a\.?` ↦ `sa` or `s.a` (the trailing optional dot is redundant);
* `k\.?k\.?` ↦ `kk` or `k.k`;
* `co\.?\s?ltd` is dropped: every string in its language contains `ltd`,
  already an alternative, so it does not change the disjunction.

`ACADEMIC_KEYWORDS` is
`univ|universit|college|academy|school|hospital|centre|center|institut|facult|dept|department`
(`universit` is subsumed by `univ` and `department` by `dept`; all are kept).
The source lowercases the affiliation before matching (`affil.lower()`). -/

/-- `needle` occurs as a contiguous substring of `hay` (over character lists). -/
def containsSub (hay needle : List Char) : Bool :=
  hay.tails.any (fun t => needle.isPrefixOf t)

/-- Substring-occurrence test on strings. -/
def hasKeyword (s : String) (kw : String) : Bool :=
  containsSub s.toList kw.toList

/-- Keyword expansion of `COMPANY_KEYWORDS` (see the comment above). -/
def companyKeywords : List String :=
  ["pharm", "biotech", "inc", "ltd", "llc", "gmbh", "corp", "corporation",
   "sa", "s.a", "plc", "kk", "k.k"]

/-- Keyword expansion of `ACADEMIC_KEYWORDS`. -/
def academicKeywords : List String :=
  ["univ", "universit", "college", "academy", "school", "hospital",
   "centre", "center", "institut", "facult", "dept", "department"]

/-- `COMPANY_KEYWORDS.search(affil_lc)` as a Boolean on the lowercased text. -/
def companyMatch (lc : String) : Bool :=
  companyKeywords.any (fun kw => hasKeyword lc kw)

/-- `ACADEMIC_KEYWORDS.search(affil_lc)` as a Boolean on the lowercased text. -/
def academicMatch (lc : String) : Bool :=
  academicKeywords.any (fun kw => hasKeyword lc kw)

/-- `is_company_affil` (fetcher.py lines 96-101): lowercase the affiliation,
then require a company-keyword match and no academic-keyword match. -/
def is_company_affil (affil : String) : Bool :=
  companyMatch (pyLower affil) && !academicMatch (pyLower affil)

/-- The spec's `classify : string → \x7bcompany, other\x7d` view of the
Boolean `is_company_affil`. -/
def classify (affil : String) : String :=
  if is_company_affil affil then "company" else "other"

example : is_company_affil "Acme Biotech Inc., Boston" = true := by decide
example : is_company_affil "Dept. of Biology, Example University" = false := by decide
example : classify "Acme Pharma GmbH" = "company" := by decide
example : is_company_affil "" = false := by decide

/-! ### First e-mail extraction (fetcher.py lines 48, 104-107)

`EMAIL_RE = [A-Za-z0-9._%+-]+@[A-Za-z0-9.-]+\.[A-Za-z]\x7b2,\x7d` and
`first_email` returns the leftmost match found by `EMAIL_RE.search`, or
`None`.  The embedding replays the backtracking engine on this concrete
pattern: candidate start positions are tried left to right; at a position,
`[A-Za-z0-9._%+-]+` greedily takes the maximal run of local-part characters
(no backtracking is possible since `@` is not a local-part character),
`@` must follow, then the maximal run of domain characters is split at the
rightmost `.` that is followed by at least two letters (greedy `+` with
backtracking over the literal dot), and `[A-Za-z]\x7b2,\x7d` greedily takes
the maximal letter run after that dot. -/

/-- Character class `[A-Za-z0-9._%+-]` (local part). -/
def localChar (c : Char) : Bool :=
  c.isAlphanum || c = '.' || c = '_' || c = '%' || c = '+' || c = '-'

/-- Character class `[A-Za-z0-9.-]` (domain). -/
def domChar (c : Char) : Bool :=
  c.isAlphanum || c = '.' || c = '-'

/-- Character class `[A-Za-z]` (top-level domain). -/
def tldChar (c : Char) : Bool :=
  c.isAlpha

/-- Split the maximal domain-character run: find the largest `j ≥ 1` such
that `run[j] = '.'` and at least two letters follow, returning the matched
portion `run[0:j] ++ "." ++ longest letter run after j`.  Trying the largest
`j` first mirrors the greedy `[A-Za-z0-9.-]+` with backtracking. -/
def domainSplit (run : List Char) : Option (List Char) :=
  (List.range run.length).reverse.findSome? (fun j =>
    if 1 ≤ j && run.getD j ' ' == '.' then
      let tld := (run.drop (j + 1)).takeWhile tldChar
      if 2 ≤ tld.length then some (run.take j ++ '.' :: tld) else none
    else none)

/-- Attempt to match `EMAIL_RE` anchored at the head of `cs`. -/
def matchEmailAt (cs : List Char) : Option (List Char) :=
  let loc := cs.takeWhile localChar
  if loc.isEmpty then none
  else
    match cs.drop loc.length with
    | '@' :: rest =>
      let run := rest.takeWhile domChar
      (domainSplit run).map (fun dom => loc ++ '@' :: dom)
    | _ => none

/-- `EMAIL_RE.search`: try each start position left to right. -/
def searchEmail : List Char → Option (List Char)
  | [] => none
  | c :: cs => (matchEmailAt (c :: cs)).or (searchEmail cs)

/-- `first_email` (fetcher.py lines 104-107): first e-mail in the text, if any. -/
def first_email (text : String) : Option String :=
  (searchEmail text.toList).map String.mk

example : first_email "Acme Inc, contact: jane.doe@acme-corp.co.uk (HQ)" =
    some "jane.doe@acme-corp.co.uk" := by decide
example : first_email "no email here" = none := by decide
example : first_email "x@y.c9 a@b.com" = some "a@b.com" := by decide

/-! ### Title truncation (fetcher.py line 155)

The source shortens titles with `textwrap.shorten(title, width=200)`.
The embedding follows the library's documented behaviour with the default
placeholder `" [...]"`: whitespace in the text is collapsed (all runs
replaced by single spaces, ends stripped); if the collapsed text fits in
`width` it is returned as is; otherwise enough words are dropped from the
end so that the remaining words plus the placeholder fit, and if not even
one word fits the stripped placeholder `"[...]"` alone is returned.  (The
CPython implementation may additionally split words at internal hyphens,
which changes only the cut granularity, not fit/no-fit behaviour or the
placeholder.) -/

/-- The default `textwrap.shorten` placeholder. -/
def placeholder : String := " [...]"

/-- Whitespace collapsing: `' '.join(text.strip().split())`. -/
def collapse (s : String) : String :=
  " ".intercalate (pyWords s)

/-- Greedily keep further words while the running joined length (one
separating space plus the word) stays within `rem`. -/
def fitRest : List String → Nat → List String
  | [], _ => []
  | w :: rest, rem =>
    if w.length + 1 ≤ rem then w :: fitRest rest (rem - (w.length + 1)) else []

/-- The longest prefix of `ws` whose single-space join has length `≤ limit`. -/
def keptWords (ws : List String) (limit : Nat) : List String :=
  match ws with
  | [] => []
  | w :: rest => if w.length ≤ limit then w :: fitRest rest (limit - w.length) else []

/-- Model of `textwrap.shorten(text, width)` (see the section comment). -/
def shorten (text : String) (width : Nat) : String :=
  let c := collapse text
  if c.length ≤ width then c
  else
    match keptWords (pyWords text) (width - placeholder.length) with
    | [] => "[...]"
    | kept => " ".intercalate kept ++ placeholder

example : shorten "A  B" 200 = "A B" := by decide
example : shorten "one two three" 9 = "one [...]" := by decide
example : shorten "one two three" 13 = "one two three" := by decide

/-! ### Record data model

`parse_articles` consumes an XML chunk; the embedding starts from the decoded
node content the source reads through `find`/`findtext`:

* a date node (`ArticleDate` or `Journal/JournalIssue/PubDate`) supplies
  optional `Year`/`Month`/`Day` texts (`findtext` yields `None` when the
  subelement is absent; an empty element yields the empty string — both are
  covered because the source coalesces with `or ""`);
* an author node supplies optional `LastName`/`ForeName`/`Initials` texts and
  a list of `AffiliationInfo/Affiliation` texts (`findtext(...) or ""` for a
  missing affiliation text is modelled by storing the empty string);
* an article node supplies optional `PMID` and `ArticleTitle` texts, the two
  optional date nodes, and the author list. -/

structure DateNode where
  year : Option String
  month : Option String
  day : Option String
deriving DecidableEq

structure AuthorNode where
  lastName : Option String
  foreName : Option String
  initials : Option String
  affiliations : List String
deriving DecidableEq

structure PubRecord where
  pmid : Option String
  title : Option String
  articleDate : Option DateNode
  journalPubDate : Option DateNode
  authors : List AuthorNode
deriving DecidableEq

/-- One output row (fetcher.py lines 152-161).  `pmid` stays optional because
the source stores `findtext(".//PMID")`, which may be `None`. -/
structure Row where
  pmid : Option String
  title : String
  pubDate : String
  nonAcadAuthors : String
  companyAffils : String
  email : String
deriving DecidableEq

/-! ### Publication date (fetcher.py lines 119-129) -/

/-- Format one date node: the `"-"`-join of the nonempty texts among
`Year`, `Month`, `Day` (in that order), or `"N/A"` when the join is empty
(`"-".join([p for p in [y, m, d] if p]) or "N/A"`). -/
def joinDate (n : DateNode) : String :=
  let parts := [orFalsy n.year "", orFalsy n.month "", orFalsy n.day ""].filter
    (fun p => p ≠ "")
  if parts.isEmpty then "N/A" else "-".intercalate parts

/-- Publication date of a record: the `ArticleDate` node if present, else the
`Journal/JournalIssue/PubDate` node if present, formatted by `joinDate`;
`"N/A"` when neither node exists. -/
def pubDateOf (r : PubRecord) : String :=
  match r.articleDate.or r.journalPubDate with
  | some n => joinDate n
  | none => "N/A"

example : joinDate ⟨some "2024", some "05", some "01"⟩ = "2024-05-01" := by decide
example : joinDate ⟨some "2024", some "05", none⟩ = "2024-05" := by decide
example : joinDate ⟨none, none, some ""⟩ = "N/A" := by decide
example : joinDate ⟨none, some "05", some "01"⟩ = "05-01" := by decide

/-! ### Per-record parsing (fetcher.py lines 131-161) -/

/-- Author display name: `f"\x7bfirst\x7d \x7blast\x7d".strip()` where
`last = findtext("LastName") or ""` and
`first = findtext("ForeName") or findtext("Initials") or ""`. -/
def displayName (a : AuthorNode) : String :=
  pyStrip (orFalsy a.foreName (orFalsy a.initials "") ++ " " ++ orFalsy a.lastName "")

/-- The (display name, stripped affiliation) pairs contributed by one author,
one per `AffiliationInfo` in listed order. -/
def authorPairsOf (a : AuthorNode) : List (String × String) :=
  a.affiliations.map (fun f => (displayName a, pyStrip f))

/-- All (name, stripped affiliation) pairs of a record: the nested
author/affiliation loop in listed order. -/
def authorPairs (r : PubRecord) : List (String × String) :=
  r.authors.flatMap authorPairsOf

/-- The guard of fetcher.py line 147: `if affil and is_company_affil(affil)`
on the stripped affiliation. -/
def companyGuard (p : String × String) : Bool :=
  p.2 ≠ "" && is_company_affil p.2

/-- The pairs that pass the company guard, in loop order; their first
components are appended to `non_acad_authors` and their second components to
`company_affils`. -/
def qualifyingPairs (r : PubRecord) : List (String × String) :=
  (authorPairs r).filter companyGuard

/-- The stripped affiliation texts of a record in loop order; the e-mail scan
(fetcher.py lines 143-144) visits these and keeps the first hit. -/
def affilTexts (r : PubRecord) : List String :=
  r.authors.flatMap (fun a => a.affiliations.map pyStrip)

/-- Parse one `PubmedArticle` node (fetcher.py lines 115-161): `none` when no
author passes the company guard (`if non_acad_authors:`), otherwise the
emitted row.  The single nested loop of the source is decomposed into the
e-mail scan (`affilTexts`/`first_email`, first hit kept) and the
company-pair scan (`qualifyingPairs`), both in loop order. -/
def parseRecord (r : PubRecord) : Option Row :=
  let nonAcad := (qualifyingPairs r).map Prod.fst
  let affils := (qualifyingPairs r).map Prod.snd
  if nonAcad.isEmpty then none
  else some
    { pmid := r.pmid
      title := shorten (orFalsy r.title "N/A") 200
      pubDate := pubDateOf r
      nonAcadAuthors := "; ".intercalate (sortedDedup nonAcad)
      companyAffils := "; ".intercalate (sortedDedup affils)
      email := orFalsy ((affilTexts r).findSome? first_email) "N/A" }

/-- `parse_articles` on a decoded chunk: one row per qualifying record, in
document order (the `rows.append` loop over `.//PubmedArticle` nodes). -/
def parse_articles (records : List PubRecord) : List Row :=
  records.filterMap parseRecord

/-! ### EFetch batching (fetcher.py lines 32, 76-88)

`efetch` iterates `for start in range(0, len(pmids), BATCH_SIZE)` with
`BATCH_SIZE = 200` and issues one request per slice
`pmids[start : start + BATCH_SIZE]`.  `chunksOf` produces the same list of
slices (empty input yields no slice, hence no request). -/

def BATCH_SIZE : Nat := 200

/-- The successive slices `pmids[start : start + BATCH_SIZE]`. -/
def chunksOf (l : List String) : List (List String) :=
  match l with
  | [] => []
  | x :: xs =>
    (x :: xs).take BATCH_SIZE :: chunksOf ((x :: xs).drop BATCH_SIZE)
termination_by l.length
decreasing_by
  simp [List.length_drop, BATCH_SIZE]
  omega

/-! ### Pipeline orchestrator (fetcher.py lines 170-192)

`fetch_papers` runs `esearch`, then extends `rows` with `parse_articles(xml)`
for each XML chunk yielded by `efetch`, with no exception handler anywhere in
the function: any exception raised by a stage aborts the call and propagates
to the caller unchanged, and no DataFrame is returned.  The network-facing
stages are abstracted as `Except`-valued parameters (search result, one fetch
per chunk, one parse per fetched chunk); exceptions are the `Except.error`
branch, carrying the stage's error value. -/

/-- Errors propagated by the pipeline (abstract payload). -/
abbrev Err := String

/-- The `for xml in efetch(pmids): rows.extend(parse_articles(xml))` loop:
fetch and parse each chunk in order, stopping at the first raised error. -/
def processBatches (fetchB : List String → Except Err String)
    (parseB : String → Except Err (List Row)) :
    List (List String) → Except Err (List Row)
  | [] => .ok []
  | b :: rest => do
    let xml ← fetchB b
    let rows ← parseB xml
    let more ← processBatches fetchB parseB rest
    .ok (rows ++ more)

/-- `fetch_papers`: search once, then fetch-and-parse every batch. -/
def fetch_papers (searchRes : Except Err (List String))
    (fetchB : List String → Except Err String)
    (parseB : String → Except Err (List Row)) : Except Err (List Row) := do
  let pmids ← searchRes
  processBatches fetchB parseB (chunksOf pmids)

/-! ### Auxiliary notions and concrete records used by the theorems below -/

/-- Sortedness in the code-point order `strLe`, the order of the emitted
multi-value fields. -/
def SortedStr (l : List String) : Prop :=
  l.Pairwise (fun a b => strLe a b = true)

/-- A record whose `ArticleDate` node carries a month and a day but no year. -/
def cexDateRec : PubRecord :=
  { pmid := none, title := none,
    articleDate := some ⟨none, some "05", some "01"⟩,
    journalPubDate := none, authors := [] }

/-- A record with a fully populated `ArticleDate`. -/
def fullDateRec : PubRecord :=
  { pmid := some "123", title := some "Sample",
    articleDate := some ⟨some "2024", some "05", some "01"⟩,
    journalPubDate := none, authors := [] }

/-- A record with no date node at all. -/
def noDateRec : PubRecord :=
  { pmid := none, title := none, articleDate := none, journalPubDate := none,
    authors := [] }

/-- A record whose `ArticleDate` node exists but is empty, while the
journal-issue `PubDate` is fully populated. -/
def journalOnlyRec : PubRecord :=
  { pmid := none, title := none,
    articleDate := some ⟨none, none, none⟩,
    journalPubDate := some ⟨some "2024", some "05", some "01"⟩, authors := [] }

/-- First author used by the permutation-invariance witness. -/
def permAuthor1 : AuthorNode :=
  { lastName := some "Doe", foreName := some "Jane", initials := none,
    affiliations := ["Acme Inc"] }

/-- Second author used by the permutation-invariance witness. -/
def permAuthor2 : AuthorNode :=
  { lastName := some "Smith", foreName := some "Bob", initials := none,
    affiliations := ["Beta Pharma"] }

/-- Two company-affiliated authors in one order … -/
def permRecA : PubRecord :=
  { pmid := some "1", title := some "T", articleDate := none,
    journalPubDate := none, authors := [permAuthor1, permAuthor2] }

/-- … and the same two authors in the other order. -/
def permRecB : PubRecord :=
  { pmid := some "1", title := some "T", articleDate := none,
    journalPubDate := none, authors := [permAuthor2, permAuthor1] }

/-- A record whose first affiliation has no e-mail and whose second one has. -/
def emailRec : PubRecord :=
  { pmid := some "2", title := some "T", articleDate := none,
    journalPubDate := none,
    authors := [{ lastName := some "Doe", foreName := some "Jane", initials := none,
                  affiliations := ["Acme Inc Boston", "contact: x@y.com, Acme"] }] }

/-- A record with one company-affiliated author. -/
def companyRec : PubRecord :=
  { pmid := some "9", title := some "T", articleDate := none,
    journalPubDate := none,
    authors := [{ lastName := some "Doe", foreName := some "Jane", initials := none,
                  affiliations := ["Acme Biotech Inc., Boston"] }] }

/-- A record whose single author has only whitespace/empty affiliations. -/
def blankRec : PubRecord :=
  { pmid := some "3", title := some "T", articleDate := none,
    journalPubDate := none,
    authors := [{ lastName := some "Doe", foreName := some "Jane", initials := none,
                  affiliations := ["   ", ""] }] }

/-- A title of 201 characters, 190 of them interior whitespace: it exceeds
the budget, but its collapsed form (12 characters) does not. -/
def wsLongTitle : String :=
  String.mk (List.replicate 10 'a' ++ List.replicate 190 ' ' ++ ['b'])

/-- The collapsed form of `wsLongTitle`. -/
def wsLongTitleCollapsed : String :=
  String.mk (List.replicate 10 'a' ++ [' ', 'b'])

/-- A single word of 201 characters: collapsing does not shrink it. -/
def oneWordLong : String :=
  String.mk (List.replicate 201 'a')

/-! ## Helper lemmas -/

/-! ### The lexicographic string order used by `sortStr` -/

lemma lexLe_total : ∀ a b : List Char, lexLe a b = true ∨ lexLe b a = true
  | [], _ => Or.inl rfl
  | _ :: _, [] => Or.inr rfl
  | a :: as, b :: bs => by
    rcases lt_trichotomy a b with h | h | h
    · exact Or.inl (by simp [lexLe, h])
    · subst h
      rcases lexLe_total as bs with ih | ih
      · exact Or.inl (by simp [lexLe, ih])
      · exact Or.inr (by simp [lexLe, ih])
    · exact Or.inr (by simp [lexLe, h])

lemma lexLe_antisymm : ∀ a b : List Char,
    lexLe a b = true → lexLe b a = true → a = b
  | [], [], _, _ => rfl
  | [], _ :: _, _, h => by simp [lexLe] at h
  | _ :: _, [], h, _ => by simp [lexLe] at h
  | a :: as, b :: bs, h₁, h₂ => by
    rcases lt_trichotomy a b with h | h | h
    · simp [lexLe, h, lt_asymm h, ne_of_gt h] at h₂
    · subst h
      simp only [lexLe, lt_irrefl, if_false, if_pos rfl, if_neg (lt_irrefl a)] at h₁ h₂
      exact congrArg (a :: ·) (lexLe_antisymm as bs h₁ h₂)
    · simp [lexLe, lt_asymm h, ne_of_gt h] at h₁

lemma lexLe_trans : ∀ a b c : List Char,
    lexLe a b = true → lexLe b c = true → lexLe a c = true
  | [], _, _, _, _ => rfl
  | _ :: _, [], _, h, _ => by simp [lexLe] at h
  | _ :: _, _ :: _, [], _, h => by simp [lexLe] at h
  | a :: as, b :: bs, c :: cs, h₁, h₂ => by
    rcases lt_trichotomy a b with hab | hab | hab
    · rcases lt_trichotomy b c with hbc | hbc | hbc
      · exact (by simp [lexLe, lt_trans hab hbc])
      · subst hbc; simp [lexLe, hab]
      · simp [lexLe, lt_asymm hbc, ne_of_gt hbc] at h₂
    · subst hab
      rcases lt_trichotomy a c with hbc | hbc | hbc
      · simp [lexLe, hbc]
      · subst hbc
        simp only [lexLe, lt_irrefl, if_false, if_pos rfl, if_neg (lt_irrefl a)] at h₁ h₂ ⊢
        exact lexLe_trans as bs cs h₁ h₂
      · simp [lexLe, lt_asymm hbc, ne_of_gt hbc] at h₂
    · simp [lexLe, lt_asymm hab, ne_of_gt hab] at h₁

lemma strLe_total (a b : String) : strLe a b = true ∨ strLe b a = true :=
  lexLe_total a.toList b.toList

lemma strLe_antisymm {a b : String} (h₁ : strLe a b = true) (h₂ : strLe b a = true) :
    a = b :=
  String.ext (lexLe_antisymm a.toList b.toList h₁ h₂)

lemma strLe_trans {a b c : String} (h₁ : strLe a b = true) (h₂ : strLe b c = true) :
    strLe a c = true :=
  lexLe_trans a.toList b.toList c.toList h₁ h₂

/-! ### Insertion sort and deduplication -/

lemma insertSorted_perm (a : String) :
    ∀ l : List String, (insertSorted a l).Perm (a :: l)
  | [] => List.Perm.refl _
  | b :: bs => by
    rw [insertSorted]
    by_cases h : strLe a b = true
    · simp [h]
    · simp only [h, if_false]
      exact ((insertSorted_perm a bs).cons b).trans (List.Perm.swap a b bs)

lemma mem_insertSorted {a x : String} {l : List String} :
    x ∈ insertSorted a l ↔ x = a ∨ x ∈ l := by
  rw [(insertSorted_perm a l).mem_iff]
  simp

lemma insertSorted_sorted (a : String) :
    ∀ {l : List String}, SortedStr l → SortedStr (insertSorted a l)
  | [], _ => List.pairwise_singleton _ a
  | b :: bs, h => by
    rw [insertSorted]
    rcases List.pairwise_cons.mp h with ⟨hb, hbs⟩
    by_cases hab : strLe a b = true
    · simp only [hab, if_true]
      refine List.pairwise_cons.mpr ⟨?_, h⟩
      intro x hx
      rcases List.mem_cons.mp hx with rfl | hx
      · exact hab
      · exact strLe_trans hab (hb x hx)
    · have hba : strLe b a = true := (strLe_total a b).resolve_left hab
      simp only [hab, if_false]
      refine List.pairwise_cons.mpr ⟨?_, insertSorted_sorted a hbs⟩
      intro x hx
      rcases mem_insertSorted.mp hx with rfl | hx
      · exact hba
      · exact hb x hx

lemma sortStr_perm : ∀ l : List String, (sortStr l).Perm l
  | [] => List.Perm.refl _
  | a :: as => (insertSorted_perm a (sortStr as)).trans ((sortStr_perm as).cons a)

lemma sortStr_sorted : ∀ l : List String, SortedStr (sortStr l)
  | [] => List.Pairwise.nil
  | a :: as => insertSorted_sorted a (sortStr_sorted as)

lemma mem_dedupStr {x : String} : ∀ {l : List String}, x ∈ dedupStr l ↔ x ∈ l
  | [] => Iff.rfl
  | a :: as => by
    rw [dedupStr]
    by_cases h : a ∈ as
    · simp only [h, if_true, List.mem_cons, mem_dedupStr]
      exact ⟨Or.inr, fun hx => hx.elim (fun hxa => hxa ▸ h) id⟩
    · simp [h, List.mem_cons, mem_dedupStr]

lemma nodup_dedupStr : ∀ l : List String, (dedupStr l).Nodup
  | [] => List.nodup_nil
  | a :: as => by
    rw [dedupStr]
    by_cases h : a ∈ as
    · simpa [h] using nodup_dedupStr as
    · simp only [h, if_false]
      exact List.nodup_cons.mpr ⟨fun hx => h (mem_dedupStr.mp hx), nodup_dedupStr as⟩

lemma mem_sortedDedup {x : String} {l : List String} :
    x ∈ sortedDedup l ↔ x ∈ l := by
  rw [sortedDedup, (sortStr_perm (dedupStr l)).mem_iff, mem_dedupStr]

lemma nodup_sortedDedup (l : List String) : (sortedDedup l).Nodup :=
  ((sortStr_perm (dedupStr l)).nodup_iff).mpr (nodup_dedupStr l)

lemma sorted_sortedDedup (l : List String) : SortedStr (sortedDedup l) :=
  sortStr_sorted (dedupStr l)

/-- Two sorted, duplicate-free string lists with the same members are equal. -/
lemma eq_of_sorted_nodup_mem : ∀ l₁ l₂ : List String,
    SortedStr l₁ → SortedStr l₂ → l₁.Nodup → l₂.Nodup →
    (∀ x, x ∈ l₁ ↔ x ∈ l₂) → l₁ = l₂
  | [], [], _, _, _, _, _ => rfl
  | [], b :: bs, _, _, _, _, hmem => by
    exact absurd ((hmem b).mpr (List.mem_cons_self b bs)) (List.not_mem_nil b)
  | a :: as, [], _, _, _, _, hmem => by
    exact absurd ((hmem a).mp (List.mem_cons_self a as)) (List.not_mem_nil a)
  | a :: as, b :: bs, h₁, h₂, n₁, n₂, hmem => by
    rcases List.pairwise_cons.mp h₁ with ⟨ha, has⟩
    rcases List.pairwise_cons.mp h₂ with ⟨hb, hbs⟩
    rcases List.nodup_cons.mp n₁ with ⟨na, nas⟩
    rcases List.nodup_cons.mp n₂ with ⟨nb, nbs⟩
    have hab : a = b := by
      rcases List.mem_cons.mp ((hmem a).mp (List.mem_cons_self a as)) with h | h
      · exact h
      · rcases List.mem_cons.mp ((hmem b).mpr (List.mem_cons_self b bs)) with h' | h'
        · exact h'.symm
        · exact strLe_antisymm (ha b h') (hb a h)
    subst hab
    have : as = bs := by
      refine eq_of_sorted_nodup_mem as bs has hbs nas nbs (fun x => ⟨fun hx => ?_, fun hx => ?_⟩)
      · rcases List.mem_cons.mp ((hmem x).mp (List.mem_cons.mpr (Or.inr hx))) with rfl | h
        · exact absurd hx na
        · exact h
      · rcases List.mem_cons.mp ((hmem x).mpr (List.mem_cons.mpr (Or.inr hx))) with rfl | h
        · exact absurd hx nb
        · exact h
    rw [this]

/-- `sorted(set(·))` is invariant under permutation of its input. -/
lemma sortedDedup_congr {l₁ l₂ : List String} (h : l₁.Perm l₂) :
    sortedDedup l₁ = sortedDedup l₂ :=
  eq_of_sorted_nodup_mem _ _ (sorted_sortedDedup l₁) (sorted_sortedDedup l₂)
    (nodup_sortedDedup l₁) (nodup_sortedDedup l₂)
    (fun x => by rw [mem_sortedDedup, mem_sortedDedup, h.mem_iff])

/-! ### Classifier and parser helpers -/

lemma is_company_affil_empty : is_company_affil "" = false := by decide

/-- The guard `if affil and is_company_affil(affil)` coincides with the bare
classification, because the classifier rejects the empty string anyway. -/
lemma companyGuard_eq (n s : String) : companyGuard (n, s) = is_company_affil s := by
  by_cases h : s = ""
  · subst h; simp [companyGuard, is_company_affil_empty]
  · simp [companyGuard, h]

/-- Membership in the qualifying pairs, unfolded to the author/affiliation
structure of the record. -/
lemma mem_qualifyingPairs {r : PubRecord} {p : String × String} :
    p ∈ qualifyingPairs r ↔
      ∃ a ∈ r.authors, ∃ f ∈ a.affiliations,
        p = (displayName a, pyStrip f) ∧ is_company_affil (pyStrip f) = true := by
  simp only [qualifyingPairs, List.mem_filter, authorPairs, List.mem_flatMap,
    authorPairsOf, List.mem_map]
  constructor
  · rintro ⟨⟨a, ha, f, hf, rfl⟩, hg⟩
    exact ⟨a, ha, f, hf, rfl, by simpa [companyGuard_eq] using hg⟩
  · rintro ⟨a, ha, f, hf, rfl, hc⟩
    exact ⟨⟨a, ha, f, hf, rfl⟩, by simpa [companyGuard_eq] using hc⟩

/-- When the row is emitted, its fields are the joined sorted deduplicated
projections of the qualifying pairs, and the e-mail is the first scan hit. -/
lemma parseRecord_eq_some {r : PubRecord} {row : Row} (h : parseRecord r = some row) :
    row = { pmid := r.pmid
            title := shorten (orFalsy r.title "N/A") 200
            pubDate := pubDateOf r
            nonAcadAuthors :=
              "; ".intercalate (sortedDedup ((qualifyingPairs r).map Prod.fst))
            companyAffils :=
              "; ".intercalate (sortedDedup ((qualifyingPairs r).map Prod.snd))
            email := orFalsy ((affilTexts r).findSome? first_email) "N/A" } := by
  rw [parseRecord] at h
  by_cases hq : ((qualifyingPairs r).map Prod.fst).isEmpty
  · simp [hq] at h
  · simp only [hq, if_neg, Bool.false_eq_true, not_false_eq_true, if_false,
      Option.some.injEq] at h
    exact h.symm

/-- The record qualifies (a row is emitted) iff some author has an
affiliation classified as a company affiliation after stripping. -/
lemma parseRecord_isSome_iff {r : PubRecord} :
    (parseRecord r).isSome = true ↔
      ∃ a ∈ r.authors, ∃ f ∈ a.affiliations, is_company_affil (pyStrip f) = true := by
  rw [parseRecord]
  by_cases hq : ((qualifyingPairs r).map Prod.fst).isEmpty
  · simp only [hq, if_true, Option.isSome_none, Bool.false_eq_true, false_iff]
    rintro ⟨a, ha, f, hf, hc⟩
    have hp : (displayName a, pyStrip f) ∈ qualifyingPairs r :=
      mem_qualifyingPairs.mpr ⟨a, ha, f, hf, rfl, hc⟩
    rcases List.isEmpty_iff.mp hq with hnil
    have : qualifyingPairs r = [] := by
      cases hEq : qualifyingPairs r with
      | nil => rfl
      | cons x xs => rw [hEq] at hnil; simp at hnil
    rw [this] at hp
    exact List.not_mem_nil _ hp
  · simp only [hq, Bool.false_eq_true, not_false_eq_true, if_false, Option.isSome_some,
      true_iff]
    have : qualifyingPairs r ≠ [] := by
      intro hEq
      rw [hEq] at hq
      simp at hq
    cases hEq : qualifyingPairs r with
    | nil => exact absurd hEq this
    | cons p ps =>
      have hp : p ∈ qualifyingPairs r := by rw [hEq]; exact List.mem_cons_self p ps
      rcases mem_qualifyingPairs.mp hp with ⟨a, ha, f, hf, _, hc⟩
      exact ⟨a, ha, f, hf, hc⟩

/-! ### First-e-mail helpers -/

lemma matchEmailAt_ne_nil {cs out : List Char} (h : matchEmailAt cs = some out) :
    out ≠ [] := by
  rw [matchEmailAt] at h
  by_cases hloc : (cs.takeWhile localChar).isEmpty
  · simp [hloc] at h
  · simp only [hloc, Bool.false_eq_true, not_false_eq_true, if_false] at h
    split at h
    · rcases Option.map_eq_some'.mp h with ⟨dom, _, rfl⟩
      simp
    · exact absurd h (by simp)

lemma searchEmail_ne_nil : ∀ {cs out : List Char}, searchEmail cs = some out → out ≠ []
  | [], out, h => by simp [searchEmail] at h
  | c :: cs, out, h => by
    rw [searchEmail] at h
    rcases hm : matchEmailAt (c :: cs) with _ | m
    · rw [hm, Option.none_or] at h
      exact searchEmail_ne_nil h
    · rw [hm] at h
      injection h with h
      exact h ▸ matchEmailAt_ne_nil hm

lemma first_email_ne_empty {s : String} {e : String} (h : first_email s = some e) :
    e ≠ "" := by
  rw [first_email, Option.map_eq_some'] at h
  rcases h with ⟨out, hout, rfl⟩
  intro hcontra
  exact searchEmail_ne_nil hout (congrArg String.data hcontra)

/-- `findSome?` keeps the first hit of the scan order. -/
lemma findSome?_first_hit {α β : Type} {f : α → Option β} {l₁ l₂ : List α} {x : α}
    {e : β} (h₁ : ∀ g ∈ l₁, f g = none) (h₂ : f x = some e) :
    ((l₁ ++ x :: l₂).findSome? f) = some e := by
  rw [List.findSome?_append, List.findSome?_eq_none_iff.mpr h₁, Option.none_or,
    List.findSome?_cons, h₂]

/-! ### Join-length bound for the truncation branch of `shorten` -/

/-- Length of `String.intercalate.go`: the accumulator plus, for each word,
the separator and the word. -/
lemma intercalate_go_length (s : String) :
    ∀ (ws : List String) (acc : String),
      (String.intercalate.go acc s ws).length =
        acc.length + (ws.map (fun w => s.length + w.length)).sum
  | [], acc => by simp [String.intercalate.go]
  | w :: ws, acc => by
    rw [String.intercalate.go, intercalate_go_length s ws]
    simp [String.length_append]
    omega

lemma intercalate_cons_length (s : String) (w : String) (ws : List String) :
    (String.intercalate s (w :: ws)).length =
      w.length + (ws.map (fun x => s.length + x.length)).sum := by
  rw [String.intercalate, intercalate_go_length]

lemma fitRest_cost : ∀ (ws : List String) (rem : Nat),
    ((fitRest ws rem).map (fun w => 1 + w.length)).sum ≤ rem
  | [], _ => Nat.zero_le _
  | w :: ws, rem => by
    rw [fitRest]
    by_cases h : w.length + 1 ≤ rem
    · simp only [h, if_true, List.map_cons, List.sum_cons]
      have := fitRest_cost ws (rem - (w.length + 1))
      omega
    · simp [h]

/-- The words kept by the truncation branch join into at most `limit`
characters. -/
lemma keptWords_join_le (ws : List String) (limit : Nat) :
    (" ".intercalate (keptWords ws limit)).length ≤ limit := by
  rcases ws with _ | ⟨w, rest⟩
  · simp [keptWords, String.intercalate]
  · rw [keptWords]
    by_cases h : w.length ≤ limit
    · simp only [h, if_true]
      rw [intercalate_cons_length]
      have hc := fitRest_cost rest (limit - w.length)
      have hs : (" " : String).length = 1 := by decide
      simp only [hs] at *
      omega
    · simp [h, String.intercalate]

lemma string_append_assoc (a b c : String) : a ++ b ++ c = a ++ (b ++ c) :=
  String.ext (by simp [String.data_append])

/-! ### Batching helpers -/

lemma chunksOf_flatten (l : List String) : (chunksOf l).flatten = l := by
  generalize hn : l.length = n
  induction n using Nat.strong_induction_on generalizing l with
  | _ n ih =>
    rcases l with _ | ⟨x, xs⟩
    · rw [chunksOf]; rfl
    · rw [chunksOf]
      have hlt : ((x :: xs).drop BATCH_SIZE).length < n := by
        rw [← hn]
        simp [List.length_drop, BATCH_SIZE]
        omega
      rw [List.flatten_cons, ih _ hlt _ rfl, List.take_append_drop]

lemma chunksOf_length (l : List String) :
    (chunksOf l).length = (l.length + (BATCH_SIZE - 1)) / BATCH_SIZE := by
  generalize hn : l.length = n
  induction n using Nat.strong_induction_on generalizing l with
  | _ n ih =>
    rcases l with _ | ⟨x, xs⟩
    · rw [chunksOf]; simp at hn; simp [← hn, BATCH_SIZE]
    · rw [chunksOf]
      have hlt : ((x :: xs).drop BATCH_SIZE).length < n := by
        rw [← hn]
        simp [List.length_drop, BATCH_SIZE]
        omega
      rw [List.length_cons, ih _ hlt _ rfl]
      simp only [List.length_drop, BATCH_SIZE] at *
      have hx : (x :: xs).length = xs.length + 1 := by simp
      rw [hx] at hn
      omega

/-- Every produced chunk is nonempty and no longer than `BATCH_SIZE`. -/
lemma chunksOf_mem (l : List String) :
    ∀ b ∈ chunksOf l, b ≠ [] ∧ b.length ≤ BATCH_SIZE := by
  generalize hn : l.length = n
  induction n using Nat.strong_induction_on generalizing l with
  | _ n ih =>
    rcases l with _ | ⟨x, xs⟩
    · rw [chunksOf]; intro b hb; exact absurd hb (List.not_mem_nil b)
    · rw [chunksOf]
      intro b hb
      rcases List.mem_cons.mp hb with rfl | hb
      · refine ⟨by simp [BATCH_SIZE], ?_⟩
        simp
      · have hlt : ((x :: xs).drop BATCH_SIZE).length < n := by
          rw [← hn]
          simp [List.length_drop, BATCH_SIZE]
          omega
        exact ih _ hlt _ rfl b hb

/-! ### Pipeline helpers -/

/-- A failing batch loop fails with the error of one of its stages. -/
lemma processBatches_error {fetchB : List String → Except Err String}
    {parseB : String → Except Err (List Row)} :
    ∀ {bs : List (List String)} {e : Err},
      processBatches fetchB parseB bs = .error e →
      ∃ b ∈ bs, fetchB b = .error e ∨ ∃ x, fetchB b = .ok x ∧ parseB x = .error e
  | [], e, h => by simp [processBatches] at h
  | b :: rest, e, h => by
    rw [processBatches] at h
    rcases hf : fetchB b with ef | x
    · rw [hf] at h
      injection h with h
      exact ⟨b, List.mem_cons_self b rest, Or.inl (h ▸ hf)⟩
    · rw [hf] at h
      replace h : (do
          let rows ← parseB x
          let more ← processBatches fetchB parseB rest
          Except.ok (rows ++ more)) = Except.error e := h
      rcases hp : parseB x with ep | rows
      · rw [hp] at h
        injection h with h
        exact ⟨b, List.mem_cons_self b rest, Or.inr ⟨x, hf, h ▸ hp⟩⟩
      · rw [hp] at h
        replace h : (do
            let more ← processBatches fetchB parseB rest
            Except.ok (rows ++ more)) = Except.error e := h
        rcases hr : processBatches fetchB parseB rest with er | more
        · rw [hr] at h
          injection h with h
          rcases processBatches_error (hr.trans (by rw [h])) with ⟨b', hb', hcase⟩
          exact ⟨b', List.mem_cons_of_mem b hb', hcase⟩
        · rw [hr] at h
          injection h

/-- The batch loop aborts at the first failing stage with exactly that
stage's error: if every batch before `b` fetches and parses successfully and
then `b`'s fetch — or, the fetch succeeding, `b`'s parse — raises `e`, the
whole loop evaluates to `e`. -/
lemma processBatches_first_error {fetchB : List String → Except Err String}
    {parseB : String → Except Err (List Row)} :
    ∀ (bs₁ : List (List String)) {b : List String} {bs₂ : List (List String)}
      {e : Err},
      (∀ b' ∈ bs₁, ∃ x rows, fetchB b' = .ok x ∧ parseB x = .ok rows) →
      (fetchB b = .error e ∨ ∃ x, fetchB b = .ok x ∧ parseB x = .error e) →
      processBatches fetchB parseB (bs₁ ++ b :: bs₂) = .error e
  | [], b, bs₂, e, _, hfail => by
    rw [List.nil_append, processBatches]
    rcases hfail with hf | ⟨x, hf, hp⟩
    · rw [hf]
      rfl
    · rw [hf]
      show (do
        let rows ← parseB x
        let more ← processBatches fetchB parseB bs₂
        Except.ok (rows ++ more)) = Except.error e
      rw [hp]
      rfl
  | b' :: bs₁, b, bs₂, e, hpre, hfail => by
    rcases hpre b' (List.mem_cons_self b' bs₁) with ⟨x, rows, hf', hp'⟩
    rw [List.cons_append, processBatches, hf']
    show (do
      let rows ← parseB x
      let more ← processBatches fetchB parseB (bs₁ ++ b :: bs₂)
      Except.ok (rows ++ more)) = Except.error e
    rw [hp']
    show (do
      let more ← processBatches fetchB parseB (bs₁ ++ b :: bs₂)
      Except.ok (rows ++ more)) = Except.error e
    rw [processBatches_first_error bs₁
      (fun c hc => hpre c (List.mem_cons_of_mem b' hc)) hfail]
    rfl

/-- If every batch fetches and parses successfully, the loop succeeds. -/
lemma processBatches_ok {fetchB : List String → Except Err String}
    {parseB : String → Except Err (List Row)} :
    ∀ {bs : List (List String)},
      (∀ b ∈ bs, ∃ x, fetchB b = .ok x ∧ ∃ rows, parseB x = .ok rows) →
      ∃ rows, processBatches fetchB parseB bs = .ok rows
  | [], _ => ⟨[], rfl⟩
  | b :: rest, h => by
    rcases h b (List.mem_cons_self b rest) with ⟨x, hf, rows, hp⟩
    rcases processBatches_ok (fun b' hb' => h b' (List.mem_cons_of_mem b hb')) with
      ⟨more, hr⟩
    refine ⟨rows ++ more, ?_⟩
    rw [processBatches, hf]
    show (do
      let rows ← parseB x
      let more ← processBatches fetchB parseB rest
      Except.ok (rows ++ more)) = Except.ok (rows ++ more)
    rw [hp]
    show (do
      let more ← processBatches fetchB parseB rest
      Except.ok (rows ++ more)) = Except.ok (rows ++ more)
    rw [hr]
    rfl

/-! ## The claims -/

/-- C1: the classifier returns "company" exactly when the company pattern
matches the (lowercased) affiliation and the academic pattern does not; in
particular, a string matching both patterns is classified "other" (academic
override), and a string matching only the company pattern is classified
"company". -/
theorem claim_C1_classifier (affil : String) :
    (classify affil = "company" ↔
      (companyMatch (pyLower affil) = true ∧ academicMatch (pyLower affil) = false)) ∧
    (companyMatch (pyLower affil) = true → academicMatch (pyLower affil) = true →
      classify affil = "other") ∧
    (companyMatch (pyLower affil) = true → academicMatch (pyLower affil) = false →
      classify affil = "company") := by
  have hne : ("other" : String) ≠ "company" := by decide
  unfold classify is_company_affil
  rcases hc : companyMatch (pyLower affil) <;>
    rcases ha : academicMatch (pyLower affil) <;>
      simp [hc, ha, hne]

/-- Witness for C1: a string with both a company indicator ("pharm") and an
academic indicator ("univ") is classified "other"; a string with only a
company indicator is classified "company". -/
theorem claim_C1_witness :
    classify "Pharma University" = "other" ∧ classify "Acme Biotech Inc." = "company" :=
  ⟨(claim_C1_classifier "Pharma University").2.1 (by decide) (by decide),
   (claim_C1_classifier "Acme Biotech Inc.").2.2 (by decide) (by decide)⟩

/-- C2: `parse_articles` emits a row for a record if and only if at least
one of its authors has an affiliation classified "company" (after
stripping): a row exists exactly when such an author exists, and a record
with zero company-classified authors contributes nothing at all to the
output, never an empty row. -/
theorem claim_C2_row_iff_company (recs : List PubRecord) (r : PubRecord) :
    ((∃ row, parseRecord r = some row) ↔
      ∃ a ∈ r.authors, ∃ f ∈ a.affiliations, is_company_affil (pyStrip f) = true) ∧
    (¬ (∃ a ∈ r.authors, ∃ f ∈ a.affiliations, is_company_affil (pyStrip f) = true) →
      parseRecord r = none) ∧
    parse_articles recs = recs.flatMap (fun s =>
      if ∃ a ∈ s.authors, ∃ f ∈ a.affiliations, is_company_affil (pyStrip f) = true
      then (parseRecord s).toList else ([] : List Row)) := by
  have hnone : ∀ s : PubRecord,
      ¬ (∃ a ∈ s.authors, ∃ f ∈ a.affiliations, is_company_affil (pyStrip f) = true) →
      parseRecord s = none := by
    intro s hc
    rcases hr : parseRecord s with _ | row
    · rfl
    · exact absurd (parseRecord_isSome_iff.mp (by rw [hr]; rfl)) hc
  refine ⟨?_, hnone r, ?_⟩
  · rw [← Option.isSome_iff_exists]
    exact parseRecord_isSome_iff
  · induction recs with
    | nil => rfl
    | cons s rest ih =>
      rw [parse_articles] at ih ⊢
      rw [List.filterMap_cons, List.flatMap_cons, ← ih]
      by_cases hc : ∃ a ∈ s.authors, ∃ f ∈ a.affiliations,
          is_company_affil (pyStrip f) = true
      · rcases Option.isSome_iff_exists.mp (parseRecord_isSome_iff.mpr hc) with
          ⟨row, hrow⟩
        simp [hrow, hc]
      · simp [hnone s hc, hc]

/-- Witness for C2: a record with a company-affiliated author does emit a
row (forward direction of the iff at a concrete input), and a record with an
academically affiliated author emits none. -/
theorem claim_C2_witness :
    (∃ row, parseRecord companyRec = some row) ∧
    parseRecord
      { pmid := some "8", title := some "T", articleDate := none,
        journalPubDate := none,
        authors := [{ lastName := some "Roe", foreName := some "Ann",
                      initials := none,
                      affiliations := ["Dept. of Biology, Example University"] }] }
      = none := by
  constructor
  · exact (claim_C2_row_iff_company [] companyRec).1.mpr
      ⟨{ lastName := some "Doe", foreName := some "Jane", initials := none,
         affiliations := ["Acme Biotech Inc., Boston"] },
       by decide, "Acme Biotech Inc., Boston", by decide, by decide⟩
  · exact (claim_C2_row_iff_company [] _).2.1 (by decide)

/-- C9: when the article-level date node exists but has no year, month or
day, the parser does not fall back to the journal-issue date: the emitted
date is the sentinel, whatever the journal-issue node holds. -/
theorem claim_C9_no_fallback (r : PubRecord) (n : DateNode)
    (h : r.articleDate = some n) (hy : orFalsy n.year "" = "")
    (hm : orFalsy n.month "" = "") (hd : orFalsy n.day "" = "") :
    pubDateOf r = "N/A" := by
  rw [pubDateOf, h]
  show joinDate n = "N/A"
  rw [joinDate, hy, hm, hd]
  rfl

/-- Witness for C9: an empty `ArticleDate` node suppresses a fully populated
journal-issue date. -/
theorem claim_C9_witness :
    pubDateOf journalOnlyRec = "N/A" ∧
    journalOnlyRec.journalPubDate = some ⟨some "2024", some "05", some "01"⟩ :=
  ⟨claim_C9_no_fallback journalOnlyRec ⟨none, none, none⟩ rfl rfl rfl rfl,
   rfl⟩

/-- C10: an affiliation that is empty after stripping never contributes: the
emitted company-affiliation entries never include the empty string, an
author whose affiliations all strip to empty contributes no qualifying pair,
and a record all of whose affiliations strip to empty emits no row. -/
theorem claim_C10_blank_affiliations (r : PubRecord) :
    ("" ∉ sortedDedup ((qualifyingPairs r).map Prod.snd)) ∧
    (∀ a : AuthorNode, (∀ f ∈ a.affiliations, pyStrip f = "") →
      (authorPairsOf a).filter companyGuard = []) ∧
    ((∀ a ∈ r.authors, ∀ f ∈ a.affiliations, pyStrip f = "") →
      parseRecord r = none) := by
  refine ⟨?_, ?_, ?_⟩
  · intro hmem
    rcases List.mem_map.mp (mem_sortedDedup.mp hmem) with ⟨p, hp, hsnd⟩
    have hg : companyGuard p = true := (List.mem_filter.mp hp).2
    rw [companyGuard] at hg
    rcases (Bool.and_eq_true _ _).mp hg with ⟨hne, _⟩
    exact (of_decide_eq_true hne) hsnd
  · intro a ha
    apply List.filter_eq_nil_iff.mpr
    intro p hp
    rcases List.mem_map.mp hp with ⟨f, hf, rfl⟩
    rw [companyGuard, ha f hf]
    simp
  · intro hall
    rw [parseRecord]
    have hq : qualifyingPairs r = [] := by
      apply List.filter_eq_nil_iff.mpr
      intro p hp
      rcases List.mem_flatMap.mp hp with ⟨a, ha, hpa⟩
      rcases List.mem_map.mp hpa with ⟨f, hf, rfl⟩
      rw [companyGuard, hall a ha f hf]
      simp
    rw [hq]
    rfl

/-- Witness for C10: a record whose only author has a whitespace-only and an
empty affiliation emits no row. -/
theorem claim_C10_witness : parseRecord blankRec = none :=
  (claim_C10_blank_affiliations blankRec).2.2 (by decide)

/-- C6: the fetch loop partitions the identifier list into consecutive
chunks of at most `BATCH_SIZE = 200` identifiers, preserving order
(concatenating the chunks gives the list back), and issues exactly
`ceil(n / 200)` requests — one per chunk; an empty identifier list yields no
chunk and hence no request. -/
theorem claim_C6_batch_partition (ids : List String) :
    (chunksOf ids).flatten = ids ∧
    (chunksOf ids).length = (ids.length + (BATCH_SIZE - 1)) / BATCH_SIZE ∧
    (∀ b ∈ chunksOf ids, b ≠ [] ∧ b.length ≤ BATCH_SIZE) ∧
    (ids = [] → chunksOf ids = []) :=
  ⟨chunksOf_flatten ids, chunksOf_length ids, chunksOf_mem ids,
   fun h => by subst h; rw [chunksOf]⟩

/-- Witness for C6: the empty identifier list produces no batch, and a
two-element list is reassembled from its chunks. -/
theorem claim_C6_witness :
    chunksOf [] = [] ∧ (chunksOf ["a", "b"]).flatten = ["a", "b"] :=
  ⟨(claim_C6_batch_partition []).2.2.2 rfl, (claim_C6_batch_partition ["a", "b"]).1⟩

/-- C8: if any stage fails, `fetch_papers` fails with that stage's error
unchanged and returns no row list.  A failing search aborts the run with the
search's error; a failing batch stage — the first batch whose fetch, or
whose parse after a successful fetch, raises — aborts the run with exactly
that error (batches after the failure are never reached in the sequential
loop); conversely a failing run's error is always some stage's own error,
and the run returns a row list exactly when every stage succeeds — so no
batch error is ever suppressed or translated. -/
theorem claim_C8_error_propagation (sr : Except Err (List String))
    (fetchB : List String → Except Err String)
    (parseB : String → Except Err (List Row)) :
    (∀ e, sr = .error e → fetch_papers sr fetchB parseB = .error e) ∧
    (∀ ids (bs₁ : List (List String)) b bs₂ e, sr = .ok ids →
      chunksOf ids = bs₁ ++ b :: bs₂ →
      (∀ b' ∈ bs₁, ∃ x rows, fetchB b' = .ok x ∧ parseB x = .ok rows) →
      (fetchB b = .error e ∨ ∃ x, fetchB b = .ok x ∧ parseB x = .error e) →
      fetch_papers sr fetchB parseB = .error e) ∧
    (∀ ids e, sr = .ok ids → fetch_papers sr fetchB parseB = .error e →
      ∃ b ∈ chunksOf ids,
        fetchB b = .error e ∨ ∃ x, fetchB b = .ok x ∧ parseB x = .error e) ∧
    (∀ ids, sr = .ok ids →
      (∀ b ∈ chunksOf ids, ∃ x, fetchB b = .ok x ∧ ∃ rows, parseB x = .ok rows) →
      ∃ rows, fetch_papers sr fetchB parseB = .ok rows) := by
  refine ⟨?_, ?_, ?_, ?_⟩
  · intro e he
    subst he
    rfl
  · intro ids bs₁ b bs₂ e hok hsplit hpre hfail
    subst hok
    show processBatches fetchB parseB (chunksOf ids) = .error e
    rw [hsplit]
    exact processBatches_first_error bs₁ hpre hfail
  · intro ids e hok herr
    subst hok
    replace herr : processBatches fetchB parseB (chunksOf ids) = .error e := herr
    exact processBatches_error herr
  · intro ids hok hall
    subst hok
    rcases processBatches_ok hall with ⟨rows, hr⟩
    exact ⟨rows, hr⟩

/-- Witness for C8: a failing search aborts the pipeline with the search's
own error, and a failing first batch fetch aborts a one-batch pipeline with
the fetch's own error. -/
theorem claim_C8_witness :
    fetch_papers (Except.error "network down") (fun _ => Except.ok "")
      (fun _ => Except.ok []) = Except.error "network down" ∧
    fetch_papers (Except.ok ["17"]) (fun _ => Except.error "http 500")
      (fun _ => Except.ok []) = Except.error "http 500" := by
  constructor
  · exact (claim_C8_error_propagation (Except.error "network down")
      (fun _ => Except.ok "") (fun _ => Except.ok [])).1 "network down" rfl
  · have h0 : chunksOf [] = [] := by rw [chunksOf]
    have hch : chunksOf ["17"] = [] ++ ["17"] :: [] := by
      rw [chunksOf]
      simp [BATCH_SIZE, h0]
    exact (claim_C8_error_propagation (Except.ok ["17"])
      (fun _ => Except.error "http 500") (fun _ => Except.ok [])).2.1
      ["17"] [] ["17"] [] "http 500" rfl hch
      (fun b' hb' => absurd hb' (List.not_mem_nil b')) (Or.inl rfl)

/-- C7: the emitted e-mail field is the first `EMAIL_RE` hit found while
scanning the record's (stripped) affiliation texts in author order and,
per author, in affiliation order — affiliations after the first hit are not
consulted — and it is the sentinel when no affiliation contains a match. -/
theorem claim_C7_first_email (r : PubRecord) (row : Row)
    (h : parseRecord r = some row) :
    (∀ (l₁ l₂ : List String) (f e : String),
      affilTexts r = l₁ ++ f :: l₂ → (∀ g ∈ l₁, first_email g = none) →
      first_email f = some e → row.email = e) ∧
    ((∀ g ∈ affilTexts r, first_email g = none) → row.email = "N/A") := by
  have hrow := parseRecord_eq_some h
  constructor
  · intro l₁ l₂ f e hsplit hnone hf
    rw [hrow]
    show orFalsy ((affilTexts r).findSome? first_email) "N/A" = e
    rw [hsplit, findSome?_first_hit hnone hf, orFalsy,
      if_neg (first_email_ne_empty hf)]
  · intro hall
    rw [hrow]
    show orFalsy ((affilTexts r).findSome? first_email) "N/A" = "N/A"
    rw [List.findSome?_eq_none_iff.mpr hall]
    rfl

/-- Witness for C7: the first affiliation of `emailRec` has no e-mail, the
second one has, and the row reports the second one's address. -/
theorem claim_C7_witness :
    ∃ row, parseRecord emailRec = some row ∧ row.email = "x@y.com" := by
  rcases hE : parseRecord emailRec with _ | row
  · exact absurd hE (by decide)
  · exact ⟨row, rfl,
      (claim_C7_first_email emailRec row hE).1 ["Acme Inc Boston"] []
        "contact: x@y.com, Acme" "x@y.com" (by decide) (by decide) (by decide)⟩

/-- C5: for a record that emits a row, the non-academic-author and
company-affiliation fields are the `"; "`-joins of duplicate-free,
`strLe`-sorted lists (entries compared by exact equality after stripping),
and the two fields are unchanged under any permutation of the record's
(name, stripped affiliation) pairs. -/
theorem claim_C5_sorted_dedup_fields (r : PubRecord) (row : Row)
    (h : parseRecord r = some row) :
    row.nonAcadAuthors =
      "; ".intercalate (sortedDedup ((qualifyingPairs r).map Prod.fst)) ∧
    row.companyAffils =
      "; ".intercalate (sortedDedup ((qualifyingPairs r).map Prod.snd)) ∧
    (sortedDedup ((qualifyingPairs r).map Prod.fst)).Nodup ∧
    SortedStr (sortedDedup ((qualifyingPairs r).map Prod.fst)) ∧
    (sortedDedup ((qualifyingPairs r).map Prod.snd)).Nodup ∧
    SortedStr (sortedDedup ((qualifyingPairs r).map Prod.snd)) ∧
    (∀ (r' : PubRecord) (row' : Row), parseRecord r' = some row' →
      (authorPairs r').Perm (authorPairs r) →
      row'.nonAcadAuthors = row.nonAcadAuthors ∧
      row'.companyAffils = row.companyAffils) := by
  have hrow := parseRecord_eq_some h
  refine ⟨by rw [hrow], by rw [hrow], nodup_sortedDedup _, sorted_sortedDedup _,
    nodup_sortedDedup _, sorted_sortedDedup _, ?_⟩
  intro r' row' h' hperm
  have hrow' := parseRecord_eq_some h'
  have hq : (qualifyingPairs r').Perm (qualifyingPairs r) :=
    hperm.filter companyGuard
  constructor
  · rw [hrow, hrow']
    show "; ".intercalate (sortedDedup ((qualifyingPairs r').map Prod.fst)) =
      "; ".intercalate (sortedDedup ((qualifyingPairs r).map Prod.fst))
    rw [sortedDedup_congr (hq.map Prod.fst)]
  · rw [hrow, hrow']
    show "; ".intercalate (sortedDedup ((qualifyingPairs r').map Prod.snd)) =
      "; ".intercalate (sortedDedup ((qualifyingPairs r).map Prod.snd))
    rw [sortedDedup_congr (hq.map Prod.snd)]

/-- Witness for C5: the two author orders of `permRecA`/`permRecB` produce
identical (sorted, deduplicated) author and affiliation fields. -/
theorem claim_C5_witness :
    ∃ rowA rowB, parseRecord permRecA = some rowA ∧
      parseRecord permRecB = some rowB ∧
      rowB.nonAcadAuthors = rowA.nonAcadAuthors ∧
      rowB.companyAffils = rowA.companyAffils ∧
      rowA.nonAcadAuthors = "Bob Smith; Jane Doe" := by
  rcases hA : parseRecord permRecA with _ | rowA
  · exact absurd hA (by decide)
  rcases hB : parseRecord permRecB with _ | rowB
  · exact absurd hB (by decide)
  have h1 : authorPairs permRecA = [("Jane Doe", "Acme Inc"), ("Bob Smith", "Beta Pharma")] := by
    decide
  have h2 : authorPairs permRecB = [("Bob Smith", "Beta Pharma"), ("Jane Doe", "Acme Inc")] := by
    decide
  have hperm : (authorPairs permRecB).Perm (authorPairs permRecA) := by
    rw [h1, h2]
    exact List.Perm.swap _ _ _
  have hfields :=
    (claim_C5_sorted_dedup_fields permRecA rowA hA).2.2.2.2.2.2 permRecB rowB hB hperm
  refine ⟨rowA, rowB, rfl, rfl, hfields.1, hfields.2, ?_⟩
  have := (claim_C5_sorted_dedup_fields permRecA rowA hA).1
  rw [this]
  decide

/-- Counterexample for C3: on a record whose `ArticleDate` carries a month
("05") and a day ("01") but no year, the code emits "05-01".  The claim
allows only the three year-led forms or the sentinel; instantiated at this
record's sub-fields (year = "", month = "05", day = "01") those are
"-05-01" (`YYYY-MM-DD`), "-05" (`YYYY-MM`), "" (`YYYY`) and "N/A", and the
emitted string is none of them. -/
theorem claim_C3_counterexample :
    pubDateOf cexDateRec = "05-01" ∧
    "05-01" ∉ (["N/A", "" ++ "-" ++ "05" ++ "-" ++ "01", "" ++ "-" ++ "05", ""] :
      List String) := by
  decide

/-- C3 (amended): the parser takes the `ArticleDate` node if present and the
journal-issue `PubDate` node otherwise; the emitted date is the `"-"`-join
of whichever of year/month/day are nonempty, in that order — which yields
`YYYY-MM-DD`, `YYYY-MM`, `YYYY` when the present sub-fields are a prefix of
(year, month, day), the sentinel "N/A" when all are empty, and a join not
led by the year (e.g. `MM-DD`, or `YYYY-DD` when only the month is missing)
otherwise. -/
theorem claim_C3_amended_date_format (r : PubRecord) (n : DateNode) :
    (r.articleDate = some n → pubDateOf r = joinDate n) ∧
    (r.articleDate = none → r.journalPubDate = some n → pubDateOf r = joinDate n) ∧
    (r.articleDate = none → r.journalPubDate = none → pubDateOf r = "N/A") ∧
    (orFalsy n.year "" ≠ "" → orFalsy n.month "" ≠ "" → orFalsy n.day "" ≠ "" →
      joinDate n =
        orFalsy n.year "" ++ "-" ++ orFalsy n.month "" ++ "-" ++ orFalsy n.day "") ∧
    (orFalsy n.year "" ≠ "" → orFalsy n.month "" ≠ "" → orFalsy n.day "" = "" →
      joinDate n = orFalsy n.year "" ++ "-" ++ orFalsy n.month "") ∧
    (orFalsy n.year "" ≠ "" → orFalsy n.month "" = "" → orFalsy n.day "" = "" →
      joinDate n = orFalsy n.year "") ∧
    (orFalsy n.year "" ≠ "" → orFalsy n.month "" = "" → orFalsy n.day "" ≠ "" →
      joinDate n = orFalsy n.year "" ++ "-" ++ orFalsy n.day "") ∧
    (orFalsy n.year "" = "" → orFalsy n.month "" = "" → orFalsy n.day "" = "" →
      joinDate n = "N/A") ∧
    (orFalsy n.year "" = "" →
      joinDate n =
        if orFalsy n.month "" = "" then
          (if orFalsy n.day "" = "" then "N/A" else orFalsy n.day "")
        else
          (if orFalsy n.day "" = "" then orFalsy n.month ""
           else orFalsy n.month "" ++ "-" ++ orFalsy n.day "")) := by
  refine ⟨?_, ?_, ?_, ?_, ?_, ?_, ?_, ?_, ?_⟩
  · intro h
    rw [pubDateOf, h]
    rfl
  · intro h1 h2
    rw [pubDateOf, h1, h2]
    rfl
  · intro h1 h2
    rw [pubDateOf, h1, h2]
    rfl
  · intro hy hm hd
    rw [joinDate]
    simp [hy, hm, hd, String.intercalate, String.intercalate.go]
  · intro hy hm hd
    rw [joinDate]
    simp [hy, hm, hd, String.intercalate, String.intercalate.go]
  · intro hy hm hd
    rw [joinDate]
    simp [hy, hm, hd, String.intercalate, String.intercalate.go]
  · intro hy hm hd
    rw [joinDate]
    simp [hy, hm, hd, String.intercalate, String.intercalate.go]
  · intro hy hm hd
    rw [joinDate]
    simp [hy, hm, hd]
  · intro hy
    rw [joinDate]
    by_cases hm : orFalsy n.month "" = "" <;> by_cases hd : orFalsy n.day "" = "" <;>
      simp [hy, hm, hd, String.intercalate, String.intercalate.go]

/-- Witness for C3 (amended): a fully populated article-level date formats
as `YYYY-MM-DD`, and a record with no date node at all yields the sentinel. -/
theorem claim_C3_witness :
    pubDateOf fullDateRec = "2024-05-01" ∧ pubDateOf noDateRec = "N/A" := by
  constructor
  · have h := claim_C3_amended_date_format fullDateRec ⟨some "2024", some "05", some "01"⟩
    rw [h.1 rfl, h.2.2.2.1 (by decide) (by decide) (by decide)]
    decide
  · exact (claim_C3_amended_date_format noDateRec ⟨none, none, none⟩).2.2.1 rfl rfl

set_option maxRecDepth 8000 in
/-- Counterexample for C4: title truncation is not the identity on titles
within the budget — `textwrap.shorten` collapses interior whitespace, so the
4-character title "A  B" is emitted as "A B" — and a 201-character title
whose collapsed form fits is emitted collapsed, without any truncation
marker, rather than truncated to the budget. -/
theorem claim_C4_counterexample :
    (("A  B" : String).length ≤ 200 ∧ shorten "A  B" 200 ≠ "A  B") ∧
    (200 < wsLongTitle.length ∧ shorten wsLongTitle 200 = wsLongTitleCollapsed ∧
      wsLongTitleCollapsed.length = 12 ∧
      containsSub (shorten wsLongTitle 200).toList ("[...]".toList) = false) := by
  refine ⟨⟨by decide, by decide⟩, by decide, by decide, by decide, by decide⟩

/-- C4 (amended): the truncation step is total; it first collapses
whitespace, so it is the identity exactly on already-collapsed titles within
the 200-character budget (and returns the collapsed title whenever that
fits, marker-free even if the original exceeded the budget); when even the
collapsed title exceeds the budget, the result is at most 200 characters
and ends with the truncation marker "[...]". -/
theorem claim_C4_amended_truncation (t : String) :
    (collapse t = t → t.length ≤ 200 → shorten t 200 = t) ∧
    ((collapse t).length ≤ 200 → shorten t 200 = collapse t) ∧
    (200 < (collapse t).length →
      (shorten t 200).length ≤ 200 ∧ ∃ p : String, shorten t 200 = p ++ "[...]") := by
  have h2 : ∀ _ : (collapse t).length ≤ 200, shorten t 200 = collapse t := by
    intro h
    rw [shorten]
    simp [h]
  refine ⟨fun hc hl => ?_, h2, fun hgt => ?_⟩
  · rw [h2 (by rw [hc]; exact hl), hc]
  · have hnle : ¬ (collapse t).length ≤ 200 := not_le.mpr hgt
    rw [shorten]
    simp only [hnle, if_false]
    rcases hk : keptWords (pyWords t) (200 - placeholder.length) with _ | ⟨w, ws⟩
    · simp only [hk]
      exact ⟨by decide, "", by decide⟩
    · simp only [hk]
      have hb := keptWords_join_le (pyWords t) (200 - placeholder.length)
      rw [hk] at hb
      constructor
      · rw [String.length_append]
        have hp : (placeholder : String).length = 6 := by decide
        rw [hp]
        have : (200 : Nat) - placeholder.length = 194 := by rw [hp]
        rw [this] at hb
        omega
      · refine ⟨" ".intercalate (w :: ws) ++ " ", ?_⟩
        rw [string_append_assoc]
        have : (" " : String) ++ "[...]" = placeholder := by decide
        rw [this]

set_option maxRecDepth 8000 in
/-- Witness for C4 (amended): an already-collapsed short title is unchanged,
and a 201-character single-word title is brought within the budget. -/
theorem claim_C4_witness :
    shorten "Sample title" 200 = "Sample title" ∧
    (shorten oneWordLong 200).length ≤ 200 := by
  constructor
  · exact (claim_C4_amended_truncation "Sample title").1 (by decide) (by decide)
  · exact ((claim_C4_amended_truncation oneWordLong).2.2 (by decide)).1

end PubmedFetcher
